import Mathlib

/-!
Verification development for the browser decision engine in `engine.js`.

The engine core is shallowly embedded: JavaScript runtime values that the
condition evaluator can encounter are modelled by the inductive type `JVal`;
JS objects are insertion-ordered association lists; JS strings are Lean
`String`s, with the string operations the engine uses (`toLowerCase`,
`split`, `includes`) re-implemented structurally over `String.data` so that
they compute by kernel reduction.  JS numbers are modelled as rationals
(the engine only ever compares them with `>=` and strict equality, and the
ruleset literals are exact decimals, so the ordering agrees with IEEE
doubles on every comparison the engine performs).  Built-in properties of
primitives and arrays (e.g. `length`) are not modelled: the engine's dotted
paths only traverse the plain record objects it builds itself.

Modelling notes, recorded where they matter:
* `mkRat 380 100` is the source literal `3.80`, written with `mkRat` so the
  kernel can evaluate comparisons (`OfScientific` rationals do not reduce).
* JS strict equality `===` on two distinct JSON-derived values is reference
  equality for arrays/objects and therefore false; `jeq` returns `false`
  on the array/object cases accordingly.
-/

namespace CollegeEngine

/-- A JavaScript runtime value as seen by the engine core. -/
inductive JVal where
  | undefined : JVal
  | null : JVal
  | bool : Bool → JVal
  | num : ℚ → JVal
  | str : String → JVal
  | arr : List JVal → JVal
  | obj : List (String × JVal) → JVal

/-- JS `v == null` (loose equality with null): true for `null` and `undefined`. -/
def jsNullish : JVal → Bool
  | .undefined => true
  | .null => true
  | _ => false

/-- Property lookup `v[k]`: key lookup on plain objects, `undefined`
otherwise (built-in properties of primitives/arrays are not modelled;
the engine's paths never use them). -/
def jget : JVal → String → JVal
  | .obj fs, k =>
    match fs.find? (fun p => p.1 == k) with
    | some p => p.2
    | none => .undefined
  | _, _ => .undefined

/-- JS strict equality `===` restricted to the values the engine compares:
primitive equality; arrays/objects compare by reference, and the two sides
always come from distinct JSON documents (ruleset literal vs. context
value), hence `false`. `NaN` does not arise (numbers are rationals). -/
def jeq : JVal → JVal → Bool
  | .undefined, .undefined => true
  | .null, .null => true
  | .bool a, .bool b => a == b
  | .num a, .num b => a == b
  | .str a, .str b => a == b
  | _, _ => false

/-- JS `String.prototype.split(sep)` for a one-character separator,
structurally over the character list (`"".split(".") = [""]`,
`"a.".split(".") = ["a",""]`). -/
def jsSplit (sep : Char) (s : String) : List String :=
  (go s.data).map (fun cs => ⟨cs⟩)
where
  go : List Char → List (List Char)
  | [] => [[]]
  | c :: rest =>
    if c = sep then [] :: go rest
    else
      match go rest with
      | [] => [[c]]
      | h :: t => (c :: h) :: t

/-- JS `String.prototype.toLowerCase` (ASCII, which covers every keyword the
engine matches), structurally over the character list. -/
def jsToLower (s : String) : String := ⟨s.data.map Char.toLower⟩

/-- JS `String.prototype.includes`: substring test, structurally over the
character lists (every string includes `""`). -/
def strIncludes (s sub : String) : Bool :=
  go sub.data s.data
where
  go (needle : List Char) : List Char → Bool
  | [] => needle.isEmpty
  | c :: cs => needle.isPrefixOf (c :: cs) || go needle cs

/-- Source `getField(ctx, path)`: split the dotted path and walk the context,
returning `undefined` as soon as the current value is nullish. -/
def getField (ctx : JVal) (path : String) : JVal :=
  go ctx (jsSplit '.' path)
where
  go : JVal → List String → JVal
  | cur, [] => cur
  | cur, p :: ps => if jsNullish cur then .undefined else go (jget cur p) ps

/-- The `exists` test of `evalCond`:
`val !== undefined && val !== null && !(Array.isArray(val) && val.length === 0)`. -/
def jsExists : JVal → Bool
  | .undefined => false
  | .null => false
  | .arr xs => !xs.isEmpty
  | _ => true

/-- A condition object of the ruleset: each recognized key is optionally
present, mirroring dynamic property probing in the source.  Per the ruleset
schema, `all`/`any` hold arrays of conditions, `exists` holds a boolean and
`gte` a number; `field` may be absent (the source then looks up the literal
path `"undefined"`, which resolves to no value).  The source field name
`in` is spelled `mem` (`in` is reserved in Lean), and `exists` is spelled
`ex`. -/
inductive Cond where
  | mk : (all : Option (List Cond)) → (any : Option (List Cond)) →
      (field : Option String) → (ex : Option Bool) → (eq : Option JVal) →
      (mem : Option JVal) → (gte : Option ℚ) → (contains : Option JVal) → Cond

/-- The leaf-operator cascade of `evalCond` (everything after the `all`/`any`
dispatch): resolve the field, then probe `exists`, `eq`, `in`, `gte`,
`contains` in source order, defaulting to `false`. -/
def leafEval (ctx : JVal) (field : Option String) (ex : Option Bool)
    (eq : Option JVal) (mem : Option JVal) (gte : Option ℚ)
    (contains : Option JVal) : Bool :=
  let val := getField ctx (field.getD "undefined")
  match ex with
  | some b => if b then jsExists val else !(jsExists val)
  | none =>
    match eq with
    | some v => jeq val v
    | none =>
      match mem with
      | some v =>
        match v with
        | .arr xs => xs.any (fun x => jeq x val)
        | _ => false
      | none =>
        match gte with
        | some q =>
          match val with
          | .num n => decide (q ≤ n)
          | _ => false
        | none =>
          match contains with
          | some v =>
            match val with
            | .arr xs => xs.any (fun x => jeq x v)
            | _ => false
          | none => false

mutual
/-- Source `evalCond(ctx, cond)` on a non-null condition object: `all` wins
over `any`, both win over the leaf-operator cascade. -/
def evalCondSome : JVal → Cond → Bool
  | ctx, .mk (some l) _ _ _ _ _ _ _ => evalAll ctx l
  | ctx, .mk none (some l) _ _ _ _ _ _ => evalAny ctx l
  | ctx, .mk none none field ex eq mem gte contains =>
    leafEval ctx field ex eq mem gte contains

/-- `cond.all.every(c => evalCond(ctx, c))` (short-circuiting). -/
def evalAll : JVal → List Cond → Bool
  | _, [] => true
  | ctx, c :: cs => evalCondSome ctx c && evalAll ctx cs

/-- `cond.any.some(c => evalCond(ctx, c))` (short-circuiting). -/
def evalAny : JVal → List Cond → Bool
  | _, [] => false
  | ctx, c :: cs => evalCondSome ctx c || evalAny ctx cs
end

/-- Source `evalCond`: a nullish condition (absent `when`) is `true`. -/
def evalCond (ctx : JVal) : Option Cond → Bool
  | none => true
  | some c => evalCondSome ctx c

/-- Source `computeGpaBand(gpa)`.  `mkRat 380 100` is the literal `3.80`,
`mkRat 350 100` is `3.50`, `mkRat 320 100` is `3.20`, `mkRat 280 100` is
`2.80` (`mkRat` so the kernel can evaluate the comparisons). -/
def computeGpaBand (gpa : ℚ) : String :=
  if gpa ≥ mkRat 380 100 then "A"
  else if gpa ≥ mkRat 350 100 then "B"
  else if gpa ≥ mkRat 320 100 then "C"
  else if gpa ≥ mkRat 280 100 then "D"
  else "E"

/-- Source `computeTimeWindow(gradeLevel, monthBucket)`.  The month bucket is
`Option String` because the caller stores `null` there for grades other
than 12 (`null === "october_or_later"` is false in JS, matching `none`). -/
def computeTimeWindow (gradeLevel : Int) (monthBucket : Option String) : String :=
  if gradeLevel = 9 ∨ gradeLevel = 10 then "early"
  else if gradeLevel = 11 then "late"
  else if gradeLevel = 12 then
    if monthBucket = some "october_or_later" then "closed" else "final"
  else "early"

/-- Source `uniqPush(arr, items)`, as a pure fold: append each item not
already present.  An absent `items` behaves as `[]` (`items || []`), so
effect lists are modelled as plain lists with `[]` for absent. -/
def uniqPush (arr : List String) (items : List String) : List String :=
  items.foldl (fun a it => if a.contains it then a else a ++ [it]) arr

/-- A JS object with boolean values, as an insertion-ordered association
list (the shape of `state.suppress` and of a `set_suppress` patch). -/
abbrev SuppressMap := List (String × Bool)

/-- JS property read on a boolean-valued object: first binding wins
(`objSet` never creates duplicate keys, matching JS object semantics). -/
def objGet : SuppressMap → String → Option Bool
  | [], _ => none
  | (k', v) :: rest, k => if k' = k then some v else objGet rest k

/-- JS property write `o[k] = v`: update in place if the key exists,
else append (JS objects keep insertion order and first-assignment position). -/
def objSet : SuppressMap → String → Bool → SuppressMap
  | [], k, v => [(k, v)]
  | (k', v') :: rest, k, v =>
    if k' = k then (k', v) :: rest else (k', v') :: objSet rest k v

/-- Source `applySuppress(state, suppressPatch)`: iterate the patch entries
in order and set only those whose value is `true` (`if (v === true)`); a
`false` entry is skipped entirely.  An absent patch is the empty list. -/
def applySuppress (sup : SuppressMap) (patch : SuppressMap) : SuppressMap :=
  patch.foldl (fun s kv => if kv.2 = true then objSet s kv.1 true else s) sup

/-- The five output accumulators plus the (never written) `success_definition`
slot of `initState`'s `outputs` object; the latter carries no data and is
reproduced only in the JS view of the state. -/
structure Outputs where
  locked : List String
  viable : List String
  actions : List String
  stop : List String
  notes : List String

/-- The mutable evaluation state created by `initState`. -/
structure EngState where
  outputs : Outputs
  suppress : SuppressMap

/-- Source `initState()`: empty accumulators, the seven suppression flags
present and `false`, in source key order. -/
def initState : EngState :=
  { outputs := { locked := [], viable := [], actions := [], stop := [], notes := [] },
    suppress :=
      [("cc", false), ("ap", false), ("middle_college", false), ("testing", false),
       ("internships", false), ("extracurriculars", false), ("essays", false)] }

/-- A rule effect (`rule.then`).  Each `add_*` list and the `set_suppress`
patch defaults to empty when absent in the source JSON (`items || []` in
`uniqPush`, the nullish guard in `applySuppress`). -/
structure Effect where
  add_locked : List String
  add_viable : List String
  add_actions : List String
  add_stop : List String
  add_notes : List String
  set_suppress : SuppressMap

/-- The empty effect `{}` (what `rule.then || {}` substitutes). -/
def Effect.empty : Effect :=
  { add_locked := [], add_viable := [], add_actions := [], add_stop := [],
    add_notes := [], set_suppress := [] }

/-- A ruleset rule `{stage, when, then}`; `then` is reserved in Lean and
spelled `thenE`. -/
structure Rule where
  stage : String
  whenC : Option Cond
  thenE : Option Effect

/-- Source `applyThen(ctx, rule)` (only the state is read or written):
push every effect list through `uniqPush` and merge the suppression patch. -/
def applyThen (st : EngState) (r : Rule) : EngState :=
  let t := r.thenE.getD Effect.empty
  { outputs :=
      { locked := uniqPush st.outputs.locked t.add_locked,
        viable := uniqPush st.outputs.viable t.add_viable,
        actions := uniqPush st.outputs.actions t.add_actions,
        stop := uniqPush st.outputs.stop t.add_stop,
        notes := uniqPush st.outputs.notes t.add_notes },
    suppress := applySuppress st.suppress t.set_suppress }

/-- The input record produced by `readInputs()` (the engine's caller);
`Option` fields are `null` in JS when absent. -/
structure Input where
  grade_level : Int
  grade_month_bucket : Option String
  gpa_unweighted : ℚ
  gpa_trend : String
  grade_concentration : String
  major_bucket : String
  systems_considered : List String
  willing_prioritize_gpa_over_rigor : Bool
  willing_summer_academics : Bool
  willing_reduce_ecs : Bool
  open_to_cc_pathways : Bool
  summer_travel_weeks : Option Int
  campus_targets_uc : List String
  academic_anomaly_timing : Option String
  ec_leadership_recognition : Option String
  senior_course_signals : List String

/-- The derived facts computed once by `runEngine` before any rule runs. -/
structure Derived where
  gpa_band : String
  time_window : String

/-- `derived` as computed at the top of `runEngine(input)`. -/
def derivedOf (input : Input) : Derived :=
  { gpa_band := computeGpaBand input.gpa_unweighted,
    time_window := computeTimeWindow input.grade_level input.grade_month_bucket }

/-- An optional string as a JS value (`null` when absent, per `readInputs`). -/
def optStr : Option String → JVal
  | some s => .str s
  | none => .null

/-- The JS view of the input record, with `readInputs`'s key order. -/
def Input.toJVal (i : Input) : JVal :=
  .obj
    [("grade_level", .num (i.grade_level : ℚ)),
     ("grade_month_bucket", optStr i.grade_month_bucket),
     ("gpa_unweighted", .num i.gpa_unweighted),
     ("gpa_trend", .str i.gpa_trend),
     ("grade_concentration", .str i.grade_concentration),
     ("major_bucket", .str i.major_bucket),
     ("systems_considered", .arr (i.systems_considered.map .str)),
     ("willing_prioritize_gpa_over_rigor", .bool i.willing_prioritize_gpa_over_rigor),
     ("willing_summer_academics", .bool i.willing_summer_academics),
     ("willing_reduce_ecs", .bool i.willing_reduce_ecs),
     ("open_to_cc_pathways", .bool i.open_to_cc_pathways),
     ("summer_travel_weeks",
       match i.summer_travel_weeks with
       | some n => .num (n : ℚ)
       | none => .null),
     ("campus_targets_uc", .arr (i.campus_targets_uc.map .str)),
     ("academic_anomaly_timing", optStr i.academic_anomaly_timing),
     ("ec_leadership_recognition", optStr i.ec_leadership_recognition),
     ("senior_course_signals", .arr (i.senior_course_signals.map .str))]

/-- The JS view of the derived facts. -/
def Derived.toJVal (d : Derived) : JVal :=
  .obj [("gpa_band", .str d.gpa_band), ("time_window", .str d.time_window)]

/-- The JS view of the evaluation state, with `initState`'s key order
(including the inert `success_definition: {}` slot). -/
def EngState.toJVal (st : EngState) : JVal :=
  .obj
    [("outputs", .obj
        [("locked", .arr (st.outputs.locked.map .str)),
         ("viable", .arr (st.outputs.viable.map .str)),
         ("actions", .arr (st.outputs.actions.map .str)),
         ("stop", .arr (st.outputs.stop.map .str)),
         ("success_definition", .obj []),
         ("notes", .arr (st.outputs.notes.map .str))]),
     ("suppress", .obj (st.suppress.map (fun p => (p.1, .bool p.2))))]

/-- The `{ input, derived, state }` context object handed to `evalCond`. -/
def ctxJ (input : Input) (derived : Derived) (st : EngState) : JVal :=
  .obj [("input", input.toJVal), ("derived", derived.toJVal), ("state", st.toJVal)]

/-- One rule visit inside `runEngine`'s loop: evaluate `when` against the
current context; if it holds, apply `then` immediately, else leave the
state unchanged. -/
def fireRule (input : Input) (derived : Derived) (st : EngState) (r : Rule) : EngState :=
  if evalCond (ctxJ input derived st) r.whenC then applyThen st r else st

/-- The output-constraints record of the ruleset (`max_*` entries optional). -/
structure Constraints where
  max_locked : Option Nat
  max_viable : Option Nat
  max_actions : Option Nat
  max_stop : Option Nat

/-- The ruleset document (the parts the engine core reads). -/
structure Ruleset where
  execution_order : List String
  rules : List Rule
  output_constraints : Constraints
  success_templates : List (String × String)

/-- The evaluated context returned by `runEngine`. -/
structure Ctx where
  input : Input
  derived : Derived
  state : EngState

/-- Source `runEngine(input)`: compute `derived`, then for each stage name
of `execution_order` in order, visit the rules whose `stage` tag matches,
in `ruleset.rules` order, threading the state through `fireRule`. -/
def runEngine (rs : Ruleset) (input : Input) : Ctx :=
  let derived := derivedOf input
  let finalSt :=
    rs.execution_order.foldl
      (fun st stage =>
        (rs.rules.filter (fun r => r.stage == stage)).foldl (fireRule input derived) st)
      initState
  { input := input, derived := derived, state := finalSt }

/-- Source `chooseSuccessTemplate(ctx)`.  The optional chaining of the
source is inert here: an evaluated context always carries its `derived`
and `input` records, and `readInputs` always supplies the two target
lists (possibly empty), matching `|| []`. -/
def chooseSuccessTemplate (ctx : Ctx) : String :=
  if ctx.derived.time_window = "closed" then "closed_window"
  else
    let band := ctx.derived.gpa_band
    let systems := ctx.input.systems_considered
    let campuses := ctx.input.campus_targets_uc
    let ccStructurallyPrimary := band = "C" ∨ band = "D" ∨ band = "E"
    let ccConsidered := systems.contains "cc_transfer"
    if ccStructurallyPrimary then
      if ccConsidered then "cc_to_uc" else "cc_transfer_refused"
    else if systems.contains "uc" then
      if campuses.contains "UCM" then "access_uc"
      else if (["UCR", "UCSC", "UCSD", "UCLA"] : List String).any
          (fun c => campuses.contains c) then "floor_guarded_uc"
      else if ctx.derived.time_window = "early" then "mid_uc_early"
      else "mid_uc_late"
    else "csu"

/-- Source `enforceConstraints(arr, maxN)`: `arr.slice(0, maxN)`.  The
argument is always an array here, and the configured maxima are
non-negative integers per the ruleset schema. -/
def enforceConstraints (arr : List String) (maxN : Nat) : List String :=
  arr.take maxN

/-- JS `x || d` on an optional numeric constraint: `0` is falsy, so both an
absent entry and an explicit `0` fall back to the default. -/
def jsOrNat (o : Option Nat) (d : Nat) : Nat :=
  match o with
  | some n => if n = 0 then d else n
  | none => d

/-- The currently-true suppression flags, in `state.suppress` entry order
(`Object.entries(...).filter(([,v]) => v === true).map(([k]) => k)`). -/
def suppressedKeys (sup : SuppressMap) : List String :=
  (sup.filter (fun p => p.2 == true)).map (fun p => p.1)

/-- The `filterSuppressed` closure of `renderOutput`: keep a line unless its
lower-cased text contains a keyword of a currently-true flag, probing the
six keyword-bearing flags in source order. -/
def filterSuppressed (keys : List String) (line : String) : Bool :=
  let s := jsToLower line
  if keys.contains "testing" && strIncludes s "test" then false
  else if keys.contains "cc" && strIncludes s "cc" then false
  else if keys.contains "ap" && (strIncludes s "ap" || strIncludes s "honors") then false
  else if keys.contains "internships" && strIncludes s "intern" then false
  else if keys.contains "extracurriculars" && (strIncludes s "ec" || strIncludes s "club") then false
  else if keys.contains "middle_college" && strIncludes s "middle college" then false
  else true

/-- `Array.from(new Set(notes))`: first-occurrence deduplication in
insertion order (JS `Set` iterates in insertion order). -/
def jsSetDedup (l : List String) : List String :=
  l.foldl (fun acc x => if acc.contains x then acc else acc ++ [x]) []

/-- `RULESET.success_templates?.[key] || fallback`: a missing map, a missing
key, or an empty (falsy) template text all yield the fixed fallback. -/
def templateText (templates : List (String × String)) (k : String) : String :=
  match templates.find? (fun p => p.1 == k) with
  | some p => if p.2 == "" then "Define success based on the primary viable pathway." else p.2
  | none => "Define success based on the primary viable pathway."

/-- The presentation record assembled by `renderOutput` (its DOM writes are
out of scope; this is the data it renders). -/
structure Presentation where
  locked : List String
  viable : List String
  actions : List String
  stop : List String
  notes : List String
  templateKey : String
  successText : String

/-- The pure core of source `renderOutput(ctx)`: truncate `locked`/`viable`,
filter `actions` by the true suppression flags, truncate the filtered
`actions` and `stop`, select the success template, and dedupe-then-truncate
`notes`, with the source's defaults. -/
def renderOutput (rs : Ruleset) (ctx : Ctx) : Presentation :=
  let c := rs.output_constraints
  let o := ctx.state.outputs
  let locked := enforceConstraints o.locked (jsOrNat c.max_locked 7)
  let viable := enforceConstraints o.viable (jsOrNat c.max_viable 6)
  let keys := suppressedKeys ctx.state.suppress
  let actionsF := o.actions.filter (fun line => filterSuppressed keys line)
  let actions := enforceConstraints actionsF (jsOrNat c.max_actions 5)
  let stopC := enforceConstraints o.stop (jsOrNat c.max_stop 5)
  let templateKey := chooseSuccessTemplate ctx
  let successText := templateText rs.success_templates templateKey
  let notes := enforceConstraints (jsSetDedup o.notes) 8
  { locked := locked, viable := viable, actions := actions, stop := stopC,
    notes := notes, templateKey := templateKey, successText := successText }

/-- The keyword table of the suppression filter, flag by flag (the spec's
table in §4.5; flags without keywords, e.g. `essays`, map to `[]`). -/
def suppressionKeywords (flag : String) : List String :=
  if flag = "testing" then ["test"]
  else if flag = "cc" then ["cc"]
  else if flag = "ap" then ["ap", "honors"]
  else if flag = "internships" then ["intern"]
  else if flag = "extracurriculars" then ["ec", "club"]
  else if flag = "middle_college" then ["middle college"]
  else []

/-- All five output accumulators of a state are duplicate-free. -/
def OutputsNodup (st : EngState) : Prop :=
  st.outputs.locked.Nodup ∧ st.outputs.viable.Nodup ∧ st.outputs.actions.Nodup
    ∧ st.outputs.stop.Nodup ∧ st.outputs.notes.Nodup

/-- A concrete input record (the spec's end-to-end example: grade 11,
GPA 3.9, UC considered, UCSD targeted), used to instantiate theorems. -/
def sampleInput : Input :=
  { grade_level := 11, grade_month_bucket := none, gpa_unweighted := mkRat 39 10,
    gpa_trend := "stable", grade_concentration := "balanced", major_bucket := "stem",
    systems_considered := ["uc"], willing_prioritize_gpa_over_rigor := false,
    willing_summer_academics := false, willing_reduce_ecs := false,
    open_to_cc_pathways := false, summer_travel_weeks := none,
    campus_targets_uc := ["UCSD"], academic_anomaly_timing := none,
    ec_leadership_recognition := none, senior_course_signals := [] }

/-- A ruleset with no rules and no configured output constraints. -/
def emptyRuleset : Ruleset :=
  { execution_order := [], rules := [],
    output_constraints :=
      { max_locked := none, max_viable := none, max_actions := none, max_stop := none },
    success_templates := [] }

/-- A ruleset with no rules whose `output_constraints` sets `max_locked := 3`. -/
def threeMaxLockedRuleset : Ruleset :=
  { execution_order := [], rules := [],
    output_constraints :=
      { max_locked := some 3, max_viable := none, max_actions := none, max_stop := none },
    success_templates := [] }

/-- A ruleset with no rules whose `output_constraints` sets `max_locked`
to the explicit value `0`. -/
def zeroMaxLockedRuleset : Ruleset :=
  { execution_order := [], rules := [],
    output_constraints :=
      { max_locked := some 0, max_viable := none, max_actions := none, max_stop := none },
    success_templates := [] }

/-- A rule with no condition (`when` absent: always fires) adding one note. -/
def sampleRule : Rule :=
  { stage := "s", whenC := none,
    thenE := some
      { add_locked := [], add_viable := [], add_actions := [], add_stop := [],
        add_notes := ["note"], set_suppress := [] } }

/-- A rule whose condition object carries none of the recognized keys
(it can never fire). -/
def neverRule : Rule :=
  { stage := "s", whenC := some (.mk none none none none none none none none),
    thenE := none }

/-- An evaluated context whose state has accumulated eight `locked` items. -/
def eightLockedCtx : Ctx :=
  { input := sampleInput, derived := derivedOf sampleInput,
    state :=
      { outputs :=
          { locked := ["l1", "l2", "l3", "l4", "l5", "l6", "l7", "l8"],
            viable := [], actions := [], stop := [], notes := [] },
        suppress := [] } }

/-! ## Helper lemmas -/

lemma gpa_band_A_iff (gpa : ℚ) : computeGpaBand gpa = "A" ↔ mkRat 380 100 ≤ gpa := by
  unfold computeGpaBand
  split_ifs with h1 h2 h3 h4 <;> simp_all

lemma gpa_band_B_iff (gpa : ℚ) :
    computeGpaBand gpa = "B" ↔ mkRat 350 100 ≤ gpa ∧ gpa < mkRat 380 100 := by
  unfold computeGpaBand
  have c3 : (mkRat 350 100 : ℚ) < mkRat 380 100 := by decide
  split_ifs with h1 h2 h3 h4 <;> simp_all

lemma gpa_band_C_iff (gpa : ℚ) :
    computeGpaBand gpa = "C" ↔ mkRat 320 100 ≤ gpa ∧ gpa < mkRat 350 100 := by
  unfold computeGpaBand
  have c2 : (mkRat 320 100 : ℚ) < mkRat 350 100 := by decide
  have c3 : (mkRat 350 100 : ℚ) < mkRat 380 100 := by decide
  split_ifs with h1 h2 h3 h4 <;> simp_all
  all_goals intro h
  all_goals linarith

lemma gpa_band_D_iff (gpa : ℚ) :
    computeGpaBand gpa = "D" ↔ mkRat 280 100 ≤ gpa ∧ gpa < mkRat 320 100 := by
  unfold computeGpaBand
  have c1 : (mkRat 280 100 : ℚ) < mkRat 320 100 := by decide
  have c2 : (mkRat 320 100 : ℚ) < mkRat 350 100 := by decide
  have c3 : (mkRat 350 100 : ℚ) < mkRat 380 100 := by decide
  split_ifs with h1 h2 h3 h4 <;> simp_all
  all_goals intro h
  all_goals linarith

lemma gpa_band_E_iff (gpa : ℚ) : computeGpaBand gpa = "E" ↔ gpa < mkRat 280 100 := by
  unfold computeGpaBand
  have c1 : (mkRat 280 100 : ℚ) < mkRat 320 100 := by decide
  have c2 : (mkRat 320 100 : ℚ) < mkRat 350 100 := by decide
  have c3 : (mkRat 350 100 : ℚ) < mkRat 380 100 := by decide
  split_ifs with h1 h2 h3 h4 <;> simp_all
  all_goals linarith

/-! ## Claim theorems -/

/-- C7: the derived facts follow the banding table (highest threshold wins,
with bands `A ≥ 3.80`, `B ≥ 3.50`, `C ≥ 3.20`, `D ≥ 2.80`, else `E`) and the
time-window table (grade 9/10 → early, 11 → late, 12 → closed exactly on
`october_or_later` else final, any other grade → early); `runEngine`
computes them once, before any rule runs. -/
theorem derived_fact_tables :
    (∀ gpa : ℚ,
      (computeGpaBand gpa = "A" ↔ mkRat 380 100 ≤ gpa)
      ∧ (computeGpaBand gpa = "B" ↔ mkRat 350 100 ≤ gpa ∧ gpa < mkRat 380 100)
      ∧ (computeGpaBand gpa = "C" ↔ mkRat 320 100 ≤ gpa ∧ gpa < mkRat 350 100)
      ∧ (computeGpaBand gpa = "D" ↔ mkRat 280 100 ≤ gpa ∧ gpa < mkRat 320 100)
      ∧ (computeGpaBand gpa = "E" ↔ gpa < mkRat 280 100))
    ∧ (∀ mb, computeTimeWindow 9 mb = "early" ∧ computeTimeWindow 10 mb = "early"
        ∧ computeTimeWindow 11 mb = "late")
    ∧ computeTimeWindow 12 (some "october_or_later") = "closed"
    ∧ (∀ mb, mb ≠ some "october_or_later" → computeTimeWindow 12 mb = "final")
    ∧ (∀ (g : Int) mb, g ≠ 9 → g ≠ 10 → g ≠ 11 → g ≠ 12 → computeTimeWindow g mb = "early")
    ∧ (∀ rs input, (runEngine rs input).derived = derivedOf input) := by
  refine ⟨fun gpa => ⟨gpa_band_A_iff gpa, gpa_band_B_iff gpa, gpa_band_C_iff gpa,
      gpa_band_D_iff gpa, gpa_band_E_iff gpa⟩,
    fun mb => ⟨by simp [computeTimeWindow], by simp [computeTimeWindow], by simp [computeTimeWindow]⟩,
    by simp [computeTimeWindow], fun mb h => ?_, fun g mb h9 h10 h11 h12 => ?_,
    fun rs input => rfl⟩
  · simp [computeTimeWindow, h]
  · simp [computeTimeWindow, h9, h10, h11, h12]

/-- C7 witness: the tables evaluated at concrete boundary inputs. -/
theorem derived_fact_tables_witness :
    computeGpaBand (mkRat 39 10) = "A"
    ∧ computeGpaBand (mkRat 379 100) = "B"
    ∧ computeTimeWindow 12 (some "september") = "final"
    ∧ computeTimeWindow 13 none = "early" := by
  refine ⟨(derived_fact_tables.1 (mkRat 39 10)).1.mpr (by decide),
    ((derived_fact_tables.1 (mkRat 379 100)).2.1).mpr ⟨by decide, by decide⟩,
    derived_fact_tables.2.2.2.1 (some "september") (by decide),
    derived_fact_tables.2.2.2.2.1 13 none (by decide) (by decide) (by decide) (by decide)⟩

/-- C1: `chooseSuccessTemplate` is a pure total function of the evaluated
context, deciding by fixed priority: closed window first; then the
community-college branch for bands C/D/E, split on whether `cc_transfer`
is considered; then the UC branch with UCM before the floor-guarded
campus set before the early/late time split; else `csu`. -/
theorem success_template_priority (ctx : Ctx) :
    chooseSuccessTemplate ctx =
      if ctx.derived.time_window = "closed" then "closed_window"
      else if ctx.derived.gpa_band = "C" ∨ ctx.derived.gpa_band = "D"
          ∨ ctx.derived.gpa_band = "E" then
        if "cc_transfer" ∈ ctx.input.systems_considered then "cc_to_uc"
        else "cc_transfer_refused"
      else if "uc" ∈ ctx.input.systems_considered then
        if "UCM" ∈ ctx.input.campus_targets_uc then "access_uc"
        else if "UCR" ∈ ctx.input.campus_targets_uc ∨ "UCSC" ∈ ctx.input.campus_targets_uc
            ∨ "UCSD" ∈ ctx.input.campus_targets_uc ∨ "UCLA" ∈ ctx.input.campus_targets_uc then
          "floor_guarded_uc"
        else if ctx.derived.time_window = "early" then "mid_uc_early"
        else "mid_uc_late"
      else "csu" := by
  unfold chooseSuccessTemplate
  simp only [List.any_cons, List.any_nil, Bool.or_false]
  split_ifs <;> simp_all

/-- C5: `evalCond` is a total boolean function over every context and
condition: an absent (nullish) condition is `true`, and a condition shape
carrying none of the recognized keys (`all`, `any`, `exists`, `eq`, `in`,
`gte`, `contains`) is `false`, so a malformed condition silently prevents
its rule from firing. -/
theorem evalCond_total_defaults :
    (∀ (ctx : JVal) (c : Option Cond), evalCond ctx c = true ∨ evalCond ctx c = false)
    ∧ (∀ ctx : JVal, evalCond ctx none = true)
    ∧ (∀ (ctx : JVal) (field : Option String),
        evalCond ctx (some (.mk none none field none none none none none)) = false) := by
  refine ⟨fun ctx c => ?_, fun ctx => rfl, fun ctx field => rfl⟩
  cases h : evalCond ctx c
  · right; rfl
  · left; rfl

/-- C10: when a condition object carries several recognized keys, `evalCond`
decides it by fixed precedence and ignores the rest: `all` before `any`,
both before the leaf operators, and among leaves `exists` before `eq`
before `in` before `gte` before `contains`. -/
theorem evalCond_key_precedence :
    (∀ (ctx : JVal) l anyc field ex eq mem gte contains,
      evalCondSome ctx (.mk (some l) anyc field ex eq mem gte contains) = evalAll ctx l)
    ∧ (∀ (ctx : JVal) l field ex eq mem gte contains,
      evalCondSome ctx (.mk none (some l) field ex eq mem gte contains) = evalAny ctx l)
    ∧ (∀ (ctx : JVal) field b eq mem gte contains,
      evalCondSome ctx (.mk none none field (some b) eq mem gte contains)
        = (if b then jsExists (getField ctx (field.getD "undefined"))
           else !(jsExists (getField ctx (field.getD "undefined")))))
    ∧ (∀ (ctx : JVal) field v mem gte contains,
      evalCondSome ctx (.mk none none field none (some v) mem gte contains)
        = jeq (getField ctx (field.getD "undefined")) v)
    ∧ (∀ (ctx : JVal) field v gte contains,
      evalCondSome ctx (.mk none none field none none (some v) gte contains)
        = (match v with
           | .arr xs => xs.any (fun x => jeq x (getField ctx (field.getD "undefined")))
           | _ => false))
    ∧ (∀ (ctx : JVal) field q contains,
      evalCondSome ctx (.mk none none field none none none (some q) contains)
        = (match getField ctx (field.getD "undefined") with
           | .num n => decide (q ≤ n)
           | _ => false))
    ∧ (∀ (ctx : JVal) field v,
      evalCondSome ctx (.mk none none field none none none none (some v))
        = (match getField ctx (field.getD "undefined") with
           | .arr xs => xs.any (fun x => jeq x v)
           | _ => false)) :=
  ⟨fun _ _ _ _ _ _ _ _ _ => rfl, fun _ _ _ _ _ _ _ _ => rfl, fun _ _ _ _ _ _ _ => rfl,
   fun _ _ _ _ _ _ => rfl, fun _ _ _ _ _ => rfl, fun _ _ _ _ => rfl, fun _ _ _ => rfl⟩

lemma jeq_undefined_right (v : JVal) (h : v ≠ .undefined) : jeq v .undefined = false := by
  cases v <;> first | exact absurd rfl h | rfl

/-- C6: when a dotted path does not fully resolve, `getField` stops at the
first absent intermediate value and yields `undefined`, and a leaf
comparison against the unresolved value fails for every operator except
`exists` with comparand `false`: `eq` (against any JSON-expressible, hence
non-`undefined`, operand), `in` (whose JSON array never contains
`undefined`), `gte` and `contains` are all `false`; `exists:true` is
`false` and `exists:false` is `true`. -/
theorem missing_field_comparisons :
    (∀ (cur : JVal) (seg : String) (rest : List String), jsNullish cur = true →
      getField.go cur (seg :: rest) = JVal.undefined)
    ∧ ∀ (ctx : JVal) (p : String), getField ctx p = JVal.undefined →
      (∀ v, v ≠ JVal.undefined →
        evalCondSome ctx (.mk none none (some p) none (some v) none none none) = false)
      ∧ (∀ xs, JVal.undefined ∉ xs →
        evalCondSome ctx (.mk none none (some p) none none (some (.arr xs)) none none) = false)
      ∧ (∀ q, evalCondSome ctx (.mk none none (some p) none none none (some q) none) = false)
      ∧ (∀ v, evalCondSome ctx (.mk none none (some p) none none none none (some v)) = false)
      ∧ evalCondSome ctx (.mk none none (some p) (some true) none none none none) = false
      ∧ evalCondSome ctx (.mk none none (some p) (some false) none none none none) = true := by
  constructor
  · intro cur seg rest h
    simp [getField.go, h]
  · intro ctx p h
    refine ⟨fun v hv => ?_, fun xs hxs => ?_, fun q => ?_, fun v => ?_, ?_, ?_⟩
    · show jeq (getField ctx p) v = false
      rw [h]
      cases v <;> first | exact absurd rfl hv | rfl
    · show xs.any (fun x => jeq x (getField ctx p)) = false
      rw [h, List.any_eq_false]
      intro x hx
      have hx' := jeq_undefined_right x (fun hxu => hxs (hxu ▸ hx))
      simp [hx']
    · show (match getField ctx p with | .num n => decide (q ≤ n) | _ => false) = false
      rw [h]
    · show (match getField ctx p with
        | .arr xs => xs.any (fun x => jeq x v) | _ => false) = false
      rw [h]
    · show jsExists (getField ctx p) = false
      rw [h]
      rfl
    · show (!jsExists (getField ctx p)) = true
      rw [h]
      rfl

/-- C6 witness: the theorem applied to the empty-object context and the
path `input.foo`, whose resolution stops at the absent `input` value. -/
theorem missing_field_comparisons_witness :
    getField.go JVal.null ["suppress"] = JVal.undefined
    ∧ evalCondSome (.obj []) (.mk none none (some "input.foo") none (some (.str "x")) none none none) = false
    ∧ evalCondSome (.obj []) (.mk none none (some "input.foo") (some false) none none none none) = true :=
  ⟨missing_field_comparisons.1 JVal.null "suppress" [] rfl,
   (missing_field_comparisons.2 (.obj []) "input.foo" rfl).1 (.str "x") (by simp),
   (missing_field_comparisons.2 (.obj []) "input.foo" rfl).2.2.2.2.2⟩

lemma objGet_objSet (o : SuppressMap) (k k' : String) (v : Bool) :
    objGet (objSet o k' v) k = if k = k' then some v else objGet o k := by
  induction o with
  | nil =>
    rcases eq_or_ne k k' with rfl | h
    · simp [objSet, objGet]
    · simp [objSet, objGet, h, Ne.symm h]
  | cons hd tl ih =>
    obtain ⟨k0, v0⟩ := hd
    rcases eq_or_ne k0 k' with rfl | hk
    · rcases eq_or_ne k k0 with rfl | h
      · simp [objSet, objGet]
      · simp [objSet, objGet, h, Ne.symm h]
    · rcases eq_or_ne k0 k with rfl | hh
      · rcases eq_or_ne k0 k' with rfl | _
        · exact absurd rfl hk
        · simp [objSet, objGet, hk, Ne.symm hk]
      · simp [objSet, objGet, hk, hh, ih]

lemma applySuppress_mono (patch : SuppressMap) :
    ∀ (sup : SuppressMap) (k : String), objGet sup k = some true →
      objGet (applySuppress sup patch) k = some true := by
  induction patch with
  | nil => intro sup k h; exact h
  | cons kv rest ih =>
    intro sup k h
    show objGet (List.foldl _ _ (kv :: rest)) k = some true
    rw [List.foldl_cons]
    by_cases hv : kv.2 = true
    · refine ih _ k ?_
      rw [if_pos hv, objGet_objSet]
      split_ifs with hk
      · rfl
      · exact h
    · refine ih _ k ?_
      rw [if_neg hv]
      exact h

lemma fireRule_suppress_mono (input : Input) (derived : Derived) (st : EngState)
    (r : Rule) (k : String) (h : objGet st.suppress k = some true) :
    objGet (fireRule input derived st r).suppress k = some true := by
  unfold fireRule
  split_ifs with hc
  · exact applySuppress_mono _ _ _ h
  · exact h

lemma foldl_fireRule_suppress_mono (input : Input) (derived : Derived)
    (rules : List Rule) :
    ∀ (st : EngState) (k : String), objGet st.suppress k = some true →
      objGet (rules.foldl (fireRule input derived) st).suppress k = some true := by
  induction rules with
  | nil => intro st k h; exact h
  | cons r rest ih =>
    intro st k h
    rw [List.foldl_cons]
    exact ih _ k (fireRule_suppress_mono input derived st r k h)

/-- C3: every suppression flag starts `false` in `initState`; `applySuppress`
applies only `true` patch entries, so a patch entry `{k: false}` leaves
the state untouched, and once a flag is `true` it stays `true` across any
further patch and across any sequence of rule firings. -/
theorem suppression_monotone :
    (∀ k, k ∈ ["cc", "ap", "middle_college", "testing", "internships",
        "extracurriculars", "essays"] → objGet initState.suppress k = some false)
    ∧ (∀ (sup : SuppressMap) (k : String), applySuppress sup [(k, false)] = sup)
    ∧ (∀ (sup patch : SuppressMap) (k : String), objGet sup k = some true →
        objGet (applySuppress sup patch) k = some true)
    ∧ (∀ (input : Input) (derived : Derived) (rules : List Rule) (st : EngState) (k : String),
        objGet st.suppress k = some true →
        objGet (rules.foldl (fireRule input derived) st).suppress k = some true) := by
  refine ⟨fun k hk => ?_, fun sup k => rfl, fun sup patch k h => applySuppress_mono patch sup k h,
    fun input derived rules st k h => foldl_fireRule_suppress_mono input derived rules st k h⟩
  simp only [List.mem_cons, List.not_mem_nil, or_false] at hk
  rcases hk with rfl | rfl | rfl | rfl | rfl | rfl | rfl <;> rfl

/-- C3 witness: the flag `cc`, already `true`, survives the patch
`{cc: false}`, and `initState` starts it `false`. -/
theorem suppression_monotone_witness :
    objGet initState.suppress "cc" = some false
    ∧ objGet (applySuppress [("cc", true)] [("cc", false)]) "cc" = some true :=
  ⟨suppression_monotone.1 "cc" (by simp),
   suppression_monotone.2.2.1 [("cc", true)] [("cc", false)] "cc" rfl⟩

lemma uniqPush_cons (arr : List String) (it : String) (rest : List String) :
    uniqPush arr (it :: rest) =
      uniqPush (if arr.contains it then arr else arr ++ [it]) rest := rfl

lemma uniqPush_nodup (items : List String) :
    ∀ arr : List String, arr.Nodup → (uniqPush arr items).Nodup := by
  induction items with
  | nil => intro arr h; exact h
  | cons it rest ih =>
    intro arr h
    rw [uniqPush_cons]
    refine ih _ ?_
    by_cases hc : arr.contains it = true
    · rwa [if_pos hc]
    · rw [if_neg hc]
      have hni : it ∉ arr := by simpa using hc
      simp [List.nodup_append, h, hni]

lemma uniqPush_extends (items : List String) :
    ∀ arr : List String, ∃ t, uniqPush arr items = arr ++ t := by
  induction items with
  | nil => intro arr; exact ⟨[], (List.append_nil arr).symm⟩
  | cons it rest ih =>
    intro arr
    rw [uniqPush_cons]
    by_cases hc : arr.contains it = true
    · rw [if_pos hc]
      exact ih arr
    · rw [if_neg hc]
      obtain ⟨t, ht⟩ := ih (arr ++ [it])
      exact ⟨[it] ++ t, by rw [ht, List.append_assoc]⟩

lemma uniqPush_mem (items : List String) :
    ∀ (arr : List String) (x : String), x ∈ uniqPush arr items ↔ x ∈ arr ∨ x ∈ items := by
  induction items with
  | nil => intro arr x; simp [uniqPush]
  | cons it rest ih =>
    intro arr x
    rw [uniqPush_cons, ih]
    by_cases hc : arr.contains it = true
    · rw [if_pos hc]
      have hit : it ∈ arr := by simpa using hc
      simp only [List.mem_cons]
      constructor
      · rintro (h | h)
        · exact Or.inl h
        · exact Or.inr (Or.inr h)
      · rintro (h | rfl | h)
        · exact Or.inl h
        · exact Or.inl hit
        · exact Or.inr h
    · rw [if_neg hc]
      simp only [List.mem_append, List.mem_cons, List.mem_singleton, or_assoc,
        List.not_mem_nil, false_or, or_false]

lemma applyThen_nodup (st : EngState) (r : Rule) (h : OutputsNodup st) :
    OutputsNodup (applyThen st r) :=
  ⟨uniqPush_nodup _ _ h.1, uniqPush_nodup _ _ h.2.1, uniqPush_nodup _ _ h.2.2.1,
   uniqPush_nodup _ _ h.2.2.2.1, uniqPush_nodup _ _ h.2.2.2.2⟩

lemma fireRule_nodup (input : Input) (derived : Derived) (st : EngState) (r : Rule)
    (h : OutputsNodup st) : OutputsNodup (fireRule input derived st r) := by
  unfold fireRule
  split_ifs with hc
  · exact applyThen_nodup st r h
  · exact h

lemma foldl_fireRule_nodup (input : Input) (derived : Derived) (rules : List Rule) :
    ∀ st : EngState, OutputsNodup st →
      OutputsNodup (rules.foldl (fireRule input derived) st) := by
  induction rules with
  | nil => intro st h; exact h
  | cons r rest ih =>
    intro st h
    rw [List.foldl_cons]
    exact ih _ (fireRule_nodup input derived st r h)

lemma foldl_flatten {α β γ : Type} (f : γ → β → γ) (g : α → List β) (l : List α) :
    ∀ init : γ,
      l.foldl (fun acc a => (g a).foldl f acc) init = (l.flatMap g).foldl f init := by
  induction l with
  | nil => intro init; rfl
  | cons a rest ih =>
    intro init
    rw [List.foldl_cons, ih, List.flatMap_cons, List.foldl_append]

/-- C4: every output category of an evaluated state is duplicate-free;
`uniqPush` only ever appends after the existing sequence (so insertion
order is preserved and the first occurrence wins its position), adds
exactly the new values, and on the concrete sequence `["A","B","A"]` then
`["C","B"]` accumulates exactly `["A","B","C"]`. -/
theorem accumulator_dedup_order :
    (∀ (rs : Ruleset) (input : Input), OutputsNodup (runEngine rs input).state)
    ∧ (∀ (arr items : List String), arr.Nodup → (uniqPush arr items).Nodup)
    ∧ (∀ (arr items : List String), ∃ t, uniqPush arr items = arr ++ t)
    ∧ (∀ (arr items : List String) (x : String),
        x ∈ uniqPush arr items ↔ x ∈ arr ∨ x ∈ items)
    ∧ uniqPush (uniqPush [] ["A", "B", "A"]) ["C", "B"] = ["A", "B", "C"] := by
  refine ⟨fun rs input => ?_, fun arr items h => uniqPush_nodup items arr h,
    fun arr items => uniqPush_extends items arr,
    fun arr items x => uniqPush_mem items arr x, by decide⟩
  show OutputsNodup
    (rs.execution_order.foldl
      (fun st stage =>
        (rs.rules.filter (fun r => r.stage == stage)).foldl
          (fireRule input (derivedOf input)) st)
      initState)
  rw [foldl_flatten]
  exact foldl_fireRule_nodup _ _ _ initState
    ⟨List.nodup_nil, List.nodup_nil, List.nodup_nil, List.nodup_nil, List.nodup_nil⟩

/-- C4 witness: the nodup-preservation conjunct applied to a concrete
accumulator that already holds `"A"`. -/
theorem accumulator_dedup_order_witness : (uniqPush ["A"] ["B", "A"]).Nodup :=
  accumulator_dedup_order.2.1 ["A"] ["B", "A"] (by simp)

/-- C2: `runEngine` threads one state through the stages of
`execution_order` in order and, within a stage, through the rules whose
tag matches in `ruleset.rules` order — equivalently, a single left fold of
`fireRule` over the stage-flattened rule sequence — and `fireRule` applies
a matching rule's effect immediately (so it is visible to every later
rule) and never skips a matching rule. -/
theorem staged_execution (rs : Ruleset) (input : Input) :
    ((runEngine rs input).state =
      (rs.execution_order.flatMap
        (fun stage => rs.rules.filter (fun r => r.stage == stage))).foldl
        (fireRule input (derivedOf input)) initState)
    ∧ (∀ (st : EngState) (r : Rule),
        evalCond (ctxJ input (derivedOf input) st) r.whenC = true →
        fireRule input (derivedOf input) st r = applyThen st r)
    ∧ (∀ (st : EngState) (r : Rule),
        evalCond (ctxJ input (derivedOf input) st) r.whenC = false →
        fireRule input (derivedOf input) st r = st) := by
  refine ⟨?_, fun st r h => ?_, fun st r h => ?_⟩
  · show
      rs.execution_order.foldl
        (fun st stage =>
          (rs.rules.filter (fun r => r.stage == stage)).foldl
            (fireRule input (derivedOf input)) st)
        initState = _
    exact foldl_flatten _ _ _ _
  · simp [fireRule, h]
  · simp [fireRule, h]

/-- C2 witness: an unconditional rule fires (its effect is applied) and a
rule with an unrecognized condition shape does not, both from `initState`. -/
theorem staged_execution_witness :
    fireRule sampleInput (derivedOf sampleInput) initState sampleRule
      = applyThen initState sampleRule
    ∧ fireRule sampleInput (derivedOf sampleInput) initState neverRule = initState :=
  ⟨(staged_execution zeroMaxLockedRuleset sampleInput).2.1 initState sampleRule rfl,
   (staged_execution zeroMaxLockedRuleset sampleInput).2.2 initState neverRule rfl⟩

lemma and_true_intro {a b : Bool} (ha : a = true) (hb : b = true) : (a && b) = true := by
  simp [ha, hb]

lemma and_true_elim {a b : Bool} (h : (a && b) = true) : a = true ∧ b = true := by
  simpa using h

lemma or_true_elim {a b : Bool} (h : (a || b) = true) : a = true ∨ b = true := by
  simpa using h

lemma or_true_left {a b : Bool} (h : a = true) : (a || b) = true := by simp [h]

lemma or_true_right {a b : Bool} (h : b = true) : (a || b) = true := by simp [h]

/-- C8: an accumulated action line is dropped by the suppression filter iff
its lower-cased text contains a keyword of a currently-true flag
(testing: "test"; cc: "cc"; ap: "ap"/"honors"; internships: "intern";
extracurriculars: "ec"/"club"; middle_college: "middle college"); the
true flags are exactly the keys recorded `true` in the suppression state;
and the filter runs before truncation, so the final actions are the first
`max_actions` surviving lines in insertion order. -/
theorem action_suppression_filtering :
    (∀ (keys : List String) (line : String),
      filterSuppressed keys line = false ↔
        ∃ k ∈ keys, ∃ w ∈ suppressionKeywords k, strIncludes (jsToLower line) w = true)
    ∧ (∀ (sup : SuppressMap) (k : String), k ∈ suppressedKeys sup ↔ (k, true) ∈ sup)
    ∧ (∀ (rs : Ruleset) (ctx : Ctx),
        (renderOutput rs ctx).actions =
          (ctx.state.outputs.actions.filter
            (fun line => filterSuppressed (suppressedKeys ctx.state.suppress) line)).take
            (jsOrNat rs.output_constraints.max_actions 5)) := by
  refine ⟨fun keys line => ?_, fun sup k => ?_, fun rs ctx => rfl⟩
  · simp only [filterSuppressed]
    split_ifs with h1 h2 h3 h4 h5 h6
    · refine iff_of_true rfl ?_
      obtain ⟨hc, hs⟩ := and_true_elim h1
      exact ⟨"testing", List.elem_iff.mp hc, "test", by simp [suppressionKeywords], hs⟩
    · refine iff_of_true rfl ?_
      obtain ⟨hc, hs⟩ := and_true_elim h2
      exact ⟨"cc", List.elem_iff.mp hc, "cc", by simp [suppressionKeywords], hs⟩
    · refine iff_of_true rfl ?_
      obtain ⟨hc, hs⟩ := and_true_elim h3
      rcases or_true_elim hs with hw | hw
      · exact ⟨"ap", List.elem_iff.mp hc, "ap", by simp [suppressionKeywords], hw⟩
      · exact ⟨"ap", List.elem_iff.mp hc, "honors", by simp [suppressionKeywords], hw⟩
    · refine iff_of_true rfl ?_
      obtain ⟨hc, hs⟩ := and_true_elim h4
      exact ⟨"internships", List.elem_iff.mp hc, "intern", by simp [suppressionKeywords], hs⟩
    · refine iff_of_true rfl ?_
      obtain ⟨hc, hs⟩ := and_true_elim h5
      rcases or_true_elim hs with hw | hw
      · exact ⟨"extracurriculars", List.elem_iff.mp hc, "ec",
          by simp [suppressionKeywords], hw⟩
      · exact ⟨"extracurriculars", List.elem_iff.mp hc, "club",
          by simp [suppressionKeywords], hw⟩
    · refine iff_of_true rfl ?_
      obtain ⟨hc, hs⟩ := and_true_elim h6
      exact ⟨"middle_college", List.elem_iff.mp hc, "middle college",
        by simp [suppressionKeywords], hs⟩
    · refine iff_of_false (by simp) ?_
      rintro ⟨k, hk, w, hw, hsub⟩
      unfold suppressionKeywords at hw
      split_ifs at hw with k1 k2 k3 k4 k5 k6
      · subst k1
        simp only [List.mem_singleton] at hw
        subst hw
        exact h1 (and_true_intro (List.elem_iff.mpr hk) hsub)
      · subst k2
        simp only [List.mem_singleton] at hw
        subst hw
        exact h2 (and_true_intro (List.elem_iff.mpr hk) hsub)
      · subst k3
        simp only [List.mem_cons, List.mem_singleton, List.not_mem_nil, or_false] at hw
        rcases hw with rfl | rfl
        · exact h3 (and_true_intro
            (List.elem_iff.mpr hk) (or_true_left hsub))
        · exact h3 (and_true_intro
            (List.elem_iff.mpr hk) (or_true_right hsub))
      · subst k4
        simp only [List.mem_singleton] at hw
        subst hw
        exact h4 (and_true_intro (List.elem_iff.mpr hk) hsub)
      · subst k5
        simp only [List.mem_cons, List.mem_singleton, List.not_mem_nil, or_false] at hw
        rcases hw with rfl | rfl
        · exact h5 (and_true_intro
            (List.elem_iff.mpr hk) (or_true_left hsub))
        · exact h5 (and_true_intro
            (List.elem_iff.mpr hk) (or_true_right hsub))
      · subst k6
        simp only [List.mem_singleton] at hw
        subst hw
        exact h6 (and_true_intro (List.elem_iff.mpr hk) hsub)
      · simp at hw
  · simp only [suppressedKeys, List.mem_map, List.mem_filter]
    constructor
    · rintro ⟨⟨k1, v1⟩, ⟨hm, hv⟩, rfl⟩
      have hv1 : v1 = true := by simpa using hv
      subst hv1
      exact hm
    · intro h
      exact ⟨(k, true), ⟨h, by simp⟩, rfl⟩

/-- C9 (amended: an explicit `0` is falsy in JS, so `max_* = 0` falls back
to the default): output shaping keeps, in insertion order, the first
`max_locked` items of locked (7 when unset), `max_viable` of viable (6),
`max_actions` of the filtered actions (5), `max_stop` of stop (5), and the
deduplicated notes truncated to 8; a nonzero configured `max_locked = N`
bounds the presented locked list by its first `N` items. -/
theorem output_truncation_shapes :
    (∀ (rs : Ruleset) (ctx : Ctx), rs.output_constraints.max_locked = none →
      (renderOutput rs ctx).locked = ctx.state.outputs.locked.take 7)
    ∧ (∀ (rs : Ruleset) (ctx : Ctx) (N : Nat),
        rs.output_constraints.max_locked = some N → N ≠ 0 →
        (renderOutput rs ctx).locked = ctx.state.outputs.locked.take N
          ∧ (renderOutput rs ctx).locked.length ≤ N)
    ∧ (∀ (rs : Ruleset) (ctx : Ctx), rs.output_constraints.max_viable = none →
      (renderOutput rs ctx).viable = ctx.state.outputs.viable.take 6)
    ∧ (∀ (rs : Ruleset) (ctx : Ctx) (N : Nat),
        rs.output_constraints.max_viable = some N → N ≠ 0 →
        (renderOutput rs ctx).viable = ctx.state.outputs.viable.take N)
    ∧ (∀ (rs : Ruleset) (ctx : Ctx), rs.output_constraints.max_actions = none →
      (renderOutput rs ctx).actions =
        (ctx.state.outputs.actions.filter
          (fun line => filterSuppressed (suppressedKeys ctx.state.suppress) line)).take 5)
    ∧ (∀ (rs : Ruleset) (ctx : Ctx) (N : Nat),
        rs.output_constraints.max_actions = some N → N ≠ 0 →
        (renderOutput rs ctx).actions =
          (ctx.state.outputs.actions.filter
            (fun line => filterSuppressed (suppressedKeys ctx.state.suppress) line)).take N)
    ∧ (∀ (rs : Ruleset) (ctx : Ctx), rs.output_constraints.max_stop = none →
      (renderOutput rs ctx).stop = ctx.state.outputs.stop.take 5)
    ∧ (∀ (rs : Ruleset) (ctx : Ctx) (N : Nat),
        rs.output_constraints.max_stop = some N → N ≠ 0 →
        (renderOutput rs ctx).stop = ctx.state.outputs.stop.take N)
    ∧ (∀ (rs : Ruleset) (ctx : Ctx),
        (renderOutput rs ctx).notes = (jsSetDedup ctx.state.outputs.notes).take 8) := by
  refine ⟨fun rs ctx h => ?_, fun rs ctx N h hN => ⟨?_, ?_⟩, fun rs ctx h => ?_,
    fun rs ctx N h hN => ?_, fun rs ctx h => ?_, fun rs ctx N h hN => ?_,
    fun rs ctx h => ?_, fun rs ctx N h hN => ?_, fun rs ctx => rfl⟩
  · simp [renderOutput, enforceConstraints, jsOrNat, h]
  · simp [renderOutput, enforceConstraints, jsOrNat, h, hN]
  · simp only [renderOutput, enforceConstraints, jsOrNat, h, if_neg hN]
    exact List.length_take_le N _
  · simp [renderOutput, enforceConstraints, jsOrNat, h]
  · simp [renderOutput, enforceConstraints, jsOrNat, h, hN]
  · simp [renderOutput, enforceConstraints, jsOrNat, h]
  · simp [renderOutput, enforceConstraints, jsOrNat, h, hN]
  · simp [renderOutput, enforceConstraints, jsOrNat, h]
  · simp [renderOutput, enforceConstraints, jsOrNat, h, hN]

/-- C9 witness: eight accumulated locked items are cut to the first seven
when `max_locked` is unset and to the first three when `max_locked = 3`. -/
theorem output_truncation_shapes_witness :
    (renderOutput emptyRuleset eightLockedCtx).locked
      = ["l1", "l2", "l3", "l4", "l5", "l6", "l7"]
    ∧ (renderOutput threeMaxLockedRuleset eightLockedCtx).locked = ["l1", "l2", "l3"] :=
  ⟨(output_truncation_shapes.1 emptyRuleset eightLockedCtx rfl).trans (by decide),
   ((output_truncation_shapes.2.1 threeMaxLockedRuleset eightLockedCtx 3 rfl
      (by decide)).1).trans (by decide)⟩

/-- C9 counterexample: with `max_locked` set to the value `0` and eight
accumulated items, the presented locked list is the first seven items —
not at most the first `0` — because `0` is falsy in `c.max_locked || 7`. -/
theorem output_truncation_zero_ignored :
    (renderOutput zeroMaxLockedRuleset eightLockedCtx).locked
      = ["l1", "l2", "l3", "l4", "l5", "l6", "l7"]
    ∧ ¬ ((renderOutput zeroMaxLockedRuleset eightLockedCtx).locked.length ≤ 0) := by
  constructor
  · decide
  · decide

end CollegeEngine
